import Mathlib

set_option maxHeartbeats 1000000

/-!
Verification development for the atom-layout core of the xfold repository.

The Lean definitions below are shallow embeddings of the Python source files
src/xfold/nn/atom_layout.py, src/xfold/nn/attention.py and
src/xfold/nn/atom_cross_attention.py.  Numpy object arrays are modelled as
shape-plus-valuation records over a small value type (strings, ints, None);
torch tensors are modelled as a shape plus a flat row-major data list;
Python exceptions are modelled with Except.  Machine floats are modelled by
rationals; the only irrational scalar appearing in the modelled code (the
attention scaling factor head_dim ** -0.5) is abstracted as a parameter,
and the softmax exponential is abstracted as an arbitrary positive map.
-/

/-- Cell values of a numpy array of dtype object as used by AtomLayout:
strings (atom and chain names), ints (residue ids) and Python None. -/
inductive PyVal where
  | str : String → PyVal
  | int : Int → PyVal
  | null : PyVal
deriving DecidableEq, Repr

/-- Python truthiness of a cell value, as used by atom_name.astype(bool):
the empty string, 0 and None are falsy. -/
def PyVal.truthy : PyVal → Bool
  | .str s => s != ""
  | .int n => n != 0
  | .null => false

/-- A numpy array of dtype object: a shape together with a total valuation of
multi-indices.  Only indices componentwise below the shape are meaningful. -/
structure NDArray where
  shape : List Nat
  val : List Nat → PyVal

/-- Componentwise bounds check of a multi-index against a shape: same length
and every component strictly below the corresponding extent. -/
def inBounds : List Nat → List Nat → Bool
  | [], [] => true
  | i :: ix, n :: s => decide (i < n) && inBounds ix s
  | _, _ => false

/-- All multi-indices below a given shape, in row-major order. -/
def indicesOf : List Nat → List (List Nat)
  | [] => [[]]
  | n :: rest => (List.range n).flatMap (fun i => (indicesOf rest).map (fun ix => i :: ix))

/-- Model of np.array_equal on object arrays: equal shapes and equal entries
at every in-bounds index. -/
def ndFullEq (a b : NDArray) : Bool :=
  a.shape == b.shape && (indicesOf a.shape).all (fun ix => decide (a.val ix = b.val ix))

/-- Model of np.pad with trailing padding (pad_width (0, new - old) per axis)
and a constant fill value: entries inside the old shape are kept, all other
entries of the new shape are the constant. -/
def NDArray.padTo (a : NDArray) (s : List Nat) (padv : PyVal) : NDArray :=
  { shape := s, val := fun ix => if inBounds ix a.shape then a.val ix else padv }

/-- Model of numpy basic slicing with one stop per axis (a[:s1, ..., :sk]):
axis sizes are clipped to the stops, values are unchanged. -/
def NDArray.sliceTo (a : NDArray) (stops : List Nat) : NDArray :=
  { shape := List.zipWith min stops a.shape, val := a.val }

/-- Shallow embedding of the frozen dataclass AtomLayout of
src/xfold/nn/atom_layout.py: three required and three optional fields, all
numpy object arrays. -/
structure AtomLayout where
  atom_name : NDArray
  res_id : NDArray
  chain_id : NDArray
  atom_element : Option NDArray
  res_name : Option NDArray
  chain_type : Option NDArray

/-- Shape agreement for an optional field, as asserted by __post_init__. -/
def optShapeOk (o : Option NDArray) (s : List Nat) : Bool :=
  match o with
  | none => true
  | some a => a.shape == s

/-- The AtomLayout.__post_init__ invariant: every present field has the shape
of atom_name.  (The dtype=object requirement is inherent to the model.) -/
def AtomLayout.wf (L : AtomLayout) : Bool :=
  L.res_id.shape == L.atom_name.shape &&
  L.chain_id.shape == L.atom_name.shape &&
  optShapeOk L.atom_element L.atom_name.shape &&
  optShapeOk L.res_name L.atom_name.shape &&
  optShapeOk L.chain_type L.atom_name.shape

/-- Model of np.array_equal(my_arr[mask], other_arr[mask]) where mask is the
truthiness mask of the atom_name array of the left layout: entries are
compared only at in-bounds indices where the mask holds.  (Boolean mask
indexing requires equal shapes, which the dataclass invariant guarantees.) -/
def maskedFieldEq (nameArr : NDArray) (a b : NDArray) : Bool :=
  (indicesOf nameArr.shape).all
    (fun ix => !(nameArr.val ix).truthy || decide (a.val ix = b.val ix))

/-- Masked comparison of an optional field pair: AtomLayout.__eq__ compares an
optional field only when it is present on both sides. -/
def optMaskedEq (nameArr : NDArray) (a b : Option NDArray) : Bool :=
  match a, b with
  | some x, some y => maskedFieldEq nameArr x y
  | _, _ => true

/-- Shallow embedding of AtomLayout.__eq__ (atom_layout.py lines 86-109):
atom_name is compared in full with np.array_equal; res_id and chain_id are
compared at masked (valid) entries only; optional fields are compared at
masked entries only when present on both sides. -/
def AtomLayout.pyEq (A B : AtomLayout) : Bool :=
  ndFullEq A.atom_name B.atom_name &&
  maskedFieldEq A.atom_name A.res_id B.res_id &&
  maskedFieldEq A.atom_name A.chain_id B.chain_id &&
  optMaskedEq A.atom_name A.atom_element B.atom_element &&
  optMaskedEq A.atom_name A.res_name B.res_name &&
  optMaskedEq A.atom_name A.chain_type B.chain_type

/-- Shallow embedding of AtomLayout.copy_and_pad_to (atom_layout.py lines
111-156): raises on rank mismatch, raises when any requested dimension is
smaller, otherwise pads string fields with the empty string and res_id
with 0. -/
def AtomLayout.copy_and_pad_to (L : AtomLayout) (shape : List Nat) :
    Except String AtomLayout :=
  if shape.length ≠ L.atom_name.shape.length then
    .error "Incompatible shape"
  else if (List.zipWith (fun old new => decide (new < old)) L.atom_name.shape shape).any id then
    .error "Cannot pad to a smaller shape"
  else
    .ok { atom_name := L.atom_name.padTo shape (.str "")
        , res_id := L.res_id.padTo shape (.int 0)
        , chain_id := L.chain_id.padTo shape (.str "")
        , atom_element := L.atom_element.map (fun a => a.padTo shape (.str ""))
        , res_name := L.res_name.map (fun a => a.padTo shape (.str ""))
        , chain_type := L.chain_type.map (fun a => a.padTo shape (.str "")) }

/-- Shallow embedding of AtomLayout.__getitem__ (atom_layout.py lines 71-84)
for keys that are a full-rank tuple of prefix slices (key = [:s1, ..., :sk]),
which is the key form used to slice a padded layout back to its original
extents: every field is sliced identically. -/
def AtomLayout.getitem (L : AtomLayout) (stops : List Nat) : AtomLayout :=
  { atom_name := L.atom_name.sliceTo stops
  , res_id := L.res_id.sliceTo stops
  , chain_id := L.chain_id.sliceTo stops
  , atom_element := L.atom_element.map (fun a => a.sliceTo stops)
  , res_name := L.res_name.map (fun a => a.sliceTo stops)
  , chain_type := L.chain_type.map (fun a => a.sliceTo stops) }

/-- Full structural equality of optional fields (same presence, and equal
arrays when present). -/
def optFullEq : Option NDArray → Option NDArray → Bool
  | none, none => true
  | some a, some b => ndFullEq a b
  | _, _ => false

/-- Exact structural equality of two layouts: every field agrees on presence,
shape and every in-bounds entry (so the padding versus valid distinction is
preserved as well).  This is strictly stronger than AtomLayout.pyEq. -/
def AtomLayout.strictEq (A B : AtomLayout) : Bool :=
  ndFullEq A.atom_name B.atom_name &&
  ndFullEq A.res_id B.res_id &&
  ndFullEq A.chain_id B.chain_id &&
  optFullEq A.atom_element B.atom_element &&
  optFullEq A.res_name B.res_name &&
  optFullEq A.chain_type B.chain_type

/-- Shallow embedding of AtomLayout.to_array (atom_layout.py lines 158-183):
raises unless all three optional fields are present, otherwise stacks the six
fields (in dataclass field order: atom_name, res_id, chain_id, atom_element,
res_name, chain_type, which is the order dataclasses.astuple produces) into
an array of shape (6, layout shape).  np.stack requires all six fields to
share one shape, which the dataclass invariant guarantees. -/
def AtomLayout.to_array (L : AtomLayout) : Except String NDArray :=
  match L.atom_element, L.res_name, L.chain_type with
  | some el, some rn, some ct =>
    .ok { shape := 6 :: L.atom_name.shape
        , val := fun ix =>
            match ix with
            | [] => PyVal.null
            | i :: rest =>
              if i = 0 then L.atom_name.val rest
              else if i = 1 then L.res_id.val rest
              else if i = 2 then L.chain_id.val rest
              else if i = 3 then el.val rest
              else if i = 4 then rn.val rest
              else if i = 5 then ct.val rest
              else PyVal.null }
  | _, _, _ => .error "All optional fields need to be present."

/-- Shallow embedding of AtomLayout.from_array (atom_layout.py lines 185-202):
raises unless the first dimension is 6 (indexing an empty shape raises as
well), otherwise rebuilds the six fields positionally in dataclass field
order. -/
def AtomLayout.from_array (arr : NDArray) : Except String AtomLayout :=
  match arr.shape with
  | [] => .error "tuple index out of range"
  | n :: rest =>
    if n ≠ 6 then
      .error "Given array must have shape (6, ...)"
    else
      .ok { atom_name := { shape := rest, val := fun ix => arr.val (0 :: ix) }
          , res_id := { shape := rest, val := fun ix => arr.val (1 :: ix) }
          , chain_id := { shape := rest, val := fun ix => arr.val (2 :: ix) }
          , atom_element := some { shape := rest, val := fun ix => arr.val (3 :: ix) }
          , res_name := some { shape := rest, val := fun ix => arr.val (4 :: ix) }
          , chain_type := some { shape := rest, val := fun ix => arr.val (5 :: ix) } }

/-- The AtomLayout.shape property: the shape of atom_name. -/
def AtomLayout.shapeOf (L : AtomLayout) : List Nat :=
  L.atom_name.shape

/-- A torch tensor of a numeric dtype: a shape plus the flat row-major data
list.  Element values are modelled as integers; the gather-and-mask claims
are independent of the element arithmetic. -/
structure Tensor where
  shape : List Nat
  data : List Int
deriving DecidableEq, Repr

/-- Tensor well-formedness: the data list has exactly one entry per position
of the shape. -/
def Tensor.wfT (t : Tensor) : Bool :=
  t.data.length == t.shape.prod

/-- A torch tensor of integer indices.  Indices are modelled as naturals;
the torch negative-index wrap is not used by any modelled call site. -/
structure NatTensor where
  shape : List Nat
  data : List Nat
deriving DecidableEq, Repr

/-- Well-formedness of an index tensor. -/
def NatTensor.wfT (t : NatTensor) : Bool :=
  t.data.length == t.shape.prod

/-- A torch tensor of booleans. -/
structure BoolTensor where
  shape : List Nat
  data : List Bool
deriving DecidableEq, Repr

/-- Well-formedness of a boolean tensor. -/
def BoolTensor.wfT (t : BoolTensor) : Bool :=
  t.data.length == t.shape.prod

/-- Shallow embedding of the frozen dataclass GatherInfo of
src/xfold/nn/atom_layout.py lines 209-248: gather indices into a flattened
source layout, a mask for the resulting array, and the unflattened source
shape. -/
structure GatherInfo where
  gather_idxs : NatTensor
  gather_mask : BoolTensor
  input_shape : List Nat
deriving DecidableEq, Repr

/-- GatherInfo construction including the __post_init__ shape assertion
(atom_layout.py lines 231-237). -/
def mkGatherInfo (idxs : NatTensor) (mask : BoolTensor) (inputShape : List Nat) :
    Except String GatherInfo :=
  if mask.shape ≠ idxs.shape then
    .error "All arrays must have the same shape."
  else
    .ok { gather_idxs := idxs, gather_mask := mask, input_shape := inputShape }

/-- The __post_init__ invariant of GatherInfo, plus data-length consistency of
the two member tensors. -/
def GatherInfo.wfG (g : GatherInfo) : Bool :=
  g.gather_mask.shape == g.gather_idxs.shape && g.gather_idxs.wfT && g.gather_mask.wfT

/-- Index keys supported by the GatherInfo.__getitem__ model: a single-axis
integer index or a single-axis prefix slice, applied to the leading axis. -/
inductive TKey where
  | idx : Nat → TKey
  | front : Nat → TKey
deriving DecidableEq, Repr

/-- Apply an index key to a NatTensor (torch indexing on the leading axis).
An integer index beyond the leading axis raises IndexError. -/
def NatTensor.applyKey (t : NatTensor) (k : TKey) : Except String NatTensor :=
  match k, t.shape with
  | _, [] => .error "too many indices for tensor"
  | .idx i, h :: rest =>
    if i < h then
      .ok { shape := rest, data := (t.data.drop (i * rest.prod)).take rest.prod }
    else
      .error "index out of range"
  | .front m, h :: rest =>
    .ok { shape := min m h :: rest, data := t.data.take (min m h * rest.prod) }

/-- Apply an index key to a BoolTensor (torch indexing on the leading axis). -/
def BoolTensor.applyKey (t : BoolTensor) (k : TKey) : Except String BoolTensor :=
  match k, t.shape with
  | _, [] => .error "too many indices for tensor"
  | .idx i, h :: rest =>
    if i < h then
      .ok { shape := rest, data := (t.data.drop (i * rest.prod)).take rest.prod }
    else
      .error "index out of range"
  | .front m, h :: rest =>
    .ok { shape := min m h :: rest, data := t.data.take (min m h * rest.prod) }

/-- Shallow embedding of GatherInfo.__getitem__ (atom_layout.py lines
239-244): the same key is applied to gather_idxs and gather_mask, the
input_shape is passed through unchanged, and the resulting pair goes through
the GatherInfo constructor (hence its __post_init__ shape assertion). -/
def GatherInfo.getKey (g : GatherInfo) (k : TKey) : Except String GatherInfo := do
  let idxs ← g.gather_idxs.applyKey k
  let mask ← g.gather_mask.applyKey k
  mkGatherInfo idxs mask g.input_shape

/-- The shape an index key produces from a given input shape. -/
def keyShape (k : TKey) (s : List Nat) : List Nat :=
  match k, s with
  | _, [] => []
  | .idx _, _ :: rest => rest
  | .front m, h :: rest => min m h :: rest

/-- Python index normalization and clamping as used by tuple slicing:
negative indices count from the end, then the result is clamped to
[0, length].  (A negative index plus the length never exceeds the length,
so only the lower clamp applies on that branch.) -/
def pyNormClamp (len : Nat) (i : Int) : Nat :=
  if i < 0 then (i + (len : Int)).toNat
  else if (len : Int) < i then len else i.toNat

/-- Python tuple slicing l[a:b]. -/
def pySlice {α : Type} (l : List α) (a b : Int) : List α :=
  (l.drop (pyNormClamp l.length a)).take (pyNormClamp l.length b - pyNormClamp l.length a)

/-- Python tuple slicing l[a:]. -/
def pyDrop {α : Type} (l : List α) (a : Int) : List α :=
  l.drop (pyNormClamp l.length a)

/-- The list of integers a, a+1, ..., b-1, as produced by Python
range(a, b). -/
def intRange (a b : Int) : List Int :=
  (List.range (b - a).toNat).map (fun k : Nat => a + (k : Int))

/-- The normalization of layout_axes performed at the top of convert
(atom_layout.py line 284): negative axis indices get the array rank added. -/
def normAxes (axes : List Int) (ndim : Nat) : List Int :=
  axes.map (fun i => if 0 ≤ i then i else i + (ndim : Int))

/-- The advanced-indexing step arr_flattened[:, ..., gather_idxs, ...] of
convert (atom_layout.py lines 322-331): for every batch position, every
gather index, and every feature position, read the source element from the
flattened layout axis of size L.  F is the product of the feature axis
sizes, nB the product of the batch axis sizes. -/
def gatherFlat (d : List Int) (L F : Nat) (idxs : List Nat) (nB : Nat) : List Int :=
  (List.range nB).flatMap (fun b =>
    idxs.flatMap (fun idx =>
      (List.range F).map (fun f => d.getD ((b * L + idx) * F + f) 0)))

/-- The mask-broadcast-and-multiply step of convert (atom_layout.py lines
338-344): the flat position p of the gathered array decomposes as
p = (b * M + j) * F + f with M the number of gathered positions, and the
element is multiplied by gather_mask[j] (a bool, so kept or zeroed). -/
def applyMask (d : List Int) (mask : List Bool) (F : Nat) : List Int :=
  (List.range d.length).map (fun p =>
    if mask.getD (p / F % mask.length) false then d.getD p 0 else 0)

/-- Shallow embedding of convert (atom_layout.py lines 276-345).  The Python
error paths are modelled with Except: the IndexError from reading
layout_axes[0] on an empty tuple, the ValueError for non-contiguous layout
axes, the ValueError (or IndexError on rank-0 input shapes) for incompatible
layout shapes, the ValueError for more than 4 batch axes, and the torch
IndexError for a gather index beyond the flattened layout axis. -/
def convert (gi : GatherInfo) (arr : Tensor) (layoutAxes : List Int) :
    Except String Tensor :=
  if layoutAxes = [] then .error "tuple index out of range" else
  let norm : List Int := normAxes layoutAxes arr.shape.length
  let b : Int := norm.headD 0
  let e : Int := norm.getLastD 0 + 1
  if norm ≠ intRange b e then .error "layout_axes must be continuous" else
  let layoutShape := pySlice arr.shape b e
  if layoutShape.length ≠ gi.input_shape.length then
    .error "Input array layout axes are incompatible" else
  if layoutShape = [] then .error "tuple index out of range" else
  if layoutShape.headD 0 < gi.input_shape.headD 0 ∨
      layoutShape.drop 1 ≠ gi.input_shape.drop 1 then
    .error "Input array layout axes are incompatible" else
  let batchShape := pySlice arr.shape 0 b
  let featuresShape := pyDrop arr.shape e
  let L := layoutShape.prod
  let F := featuresShape.prod
  let nB := batchShape.prod
  if ¬ (0 ≤ b ∧ b ≤ 4) then .error "Only 4 batch axes supported" else
  if ¬ (gi.gather_idxs.data.all (fun i => decide (i < L))) then
    .error "gather index out of range" else
  .ok { shape := batchShape ++ gi.gather_idxs.shape ++ featuresShape
      , data := applyMask (gatherFlat arr.data L F gi.gather_idxs.data nB)
          gi.gather_mask.data F }

/-- The identity-permutation GatherInfo over a layout shape s, as described
by the conversion-correctness property: gather indices enumerate every
flattened source position in order, the mask is all true, and the output
shape equals the input shape. -/
def identityGatherInfo (s : List Nat) : GatherInfo :=
  { gather_idxs := { shape := s, data := List.range s.prod }
  , gather_mask := { shape := s, data := List.replicate s.prod true }
  , input_shape := s }

/-- Dot product of two equal-length vectors over the rationals. -/
def dotQ (xs ys : List ℚ) : List ℚ :=
  List.zipWith (fun a b => a * b) xs ys

/-- One query row of the logits computed by dot_product_attention
(attention.py lines 8-14): the query is scaled, dotted with every key, and
the additive bias is applied.  The scaling factor head_dim ** -0.5 is
irrational and is abstracted as the parameter s. -/
def dpaLogitsRow (s : ℚ) (qrow : List ℚ) (ks : List (List ℚ)) (bias : List ℚ) :
    List ℚ :=
  (List.range ks.length).map
    (fun j => (dotQ (qrow.map (fun x => x * s)) (ks.getD j [])).sum + bias.getD j 0)

/-- The boolean-mask step of dot_product_attention (attention.py line 17):
logits.masked_fill_(~mask, -1e9) replaces the logit at every position whose
mask entry is False by -1e9. -/
def maskFill (logits : List ℚ) (mask : List Bool) : List ℚ :=
  List.zipWith (fun l m => if m then l else (-1000000000 : ℚ)) logits mask

/-- Softmax over the key axis (attention.py line 19) with the floating-point
exponential abstracted as a map e; for any strictly positive e this has the
exact normalization property of softmax. -/
def softmaxWith (e : ℚ → ℚ) (l : List ℚ) : List ℚ :=
  l.map (fun x => e x / (l.map e).sum)

/-- The weighted sum of values computed by dot_product_attention
(attention.py line 20) for one query row. -/
def weightedSum (w : List ℚ) (vs : List (List ℚ)) : List ℚ :=
  (List.range (vs.headD []).length).map
    (fun c => ((List.range vs.length).map (fun j => w.getD j 0 * (vs.getD j []).getD c 0)).sum)

/-- Python exceptions raised by the modelled forward passes. -/
inductive PyErr where
  | assertionError : PyErr
  | notImplementedError : PyErr
  | attributeError : PyErr
deriving DecidableEq, Repr

/-- The three extension-path flags of AtomCrossAttEncoder.__init__
(atom_cross_attention.py lines 29-36). -/
structure EncoderFlags where
  with_token_atoms_act : Bool
  with_trunk_single_cond : Bool
  with_trunk_pair_cond : Bool
deriving DecidableEq, Repr

/-- Control-flow skeleton of AtomCrossAttEncoder.forward
(atom_cross_attention.py lines 149-284) for a well-formed batch: the three
booleans record whether each optional argument was provided (is not None).
Lines 157-159 assert that each argument is provided exactly when its flag is
set; line 179 raises NotImplementedError when token_atoms_act is provided;
line 206 raises NotImplementedError when trunk_pair_cond is provided; the
trunk_single_cond argument is never consulted after the assertion, so the
function runs to completion and returns an output.  The numeric tensor work
of the supported path raises nothing for a well-formed batch and is outside
this skeleton. -/
def acaeForwardOutcome (f : EncoderFlags) (tokenAtomsAct trunkSingleCond trunkPairCond : Bool) :
    Except PyErr Unit :=
  if tokenAtomsAct ≠ f.with_token_atoms_act then .error .assertionError
  else if trunkSingleCond ≠ f.with_trunk_single_cond then .error .assertionError
  else if trunkPairCond ≠ f.with_trunk_pair_cond then .error .assertionError
  else if tokenAtomsAct then .error .notImplementedError
  else if trunkPairCond then .error .notImplementedError
  else .ok ()

/-- The parts of AttentionPairBias.__init__ relevant to input normalization
(attention.py lines 90-107): the submodule layer_norm is registered only
when use_single_cond is False.  The layer-norm function itself is abstracted
(its weights are irrelevant to the claim). -/
structure APBModule where
  use_single_cond : Bool
  layer_norm : Option (List ℚ → List ℚ)

/-- AttentionPairBias construction (attention.py lines 99-100): layer_norm
exists if and only if use_single_cond is False. -/
def mkAttentionPairBias (useSingleCond : Bool) (ln : List ℚ → List ℚ) : APBModule :=
  { use_single_cond := useSingleCond
  , layer_norm := if useSingleCond = false then some ln else none }

/-- The input-normalization step of AttentionPairBias.forward (attention.py
line 118): x = self.layer_norm(x) is executed unconditionally, so when the
submodule was not registered the attribute lookup raises AttributeError; the
result is the x consumed by the q/k/v and gating projections. -/
def apbForwardNormed (m : APBModule) (x : List ℚ) : Except PyErr (List ℚ) :=
  match m.layer_norm with
  | some f => .ok (f x)
  | none => .error .attributeError

/-- A 1-D object array built from a list of cell values. -/
def ndOf1 (l : List PyVal) : NDArray :=
  { shape := [l.length], val := fun ix => l.getD (ix.headD 0) PyVal.null }

/-- A one-slot layout whose single slot is padding, with empty-string
atom_name. -/
def alPadStr : AtomLayout :=
  { atom_name := ndOf1 [PyVal.str ""]
  , res_id := ndOf1 [PyVal.int 7]
  , chain_id := ndOf1 [PyVal.str "A"]
  , atom_element := none, res_name := none, chain_type := none }

/-- The same one-slot padding layout with None in place of the empty string
in atom_name. -/
def alPadNull : AtomLayout :=
  { atom_name := ndOf1 [PyVal.null]
  , res_id := ndOf1 [PyVal.int 7]
  , chain_id := ndOf1 [PyVal.str "A"]
  , atom_element := none, res_name := none, chain_type := none }

/-- A two-slot layout (one valid slot, one padding slot). -/
def alTwoA : AtomLayout :=
  { atom_name := ndOf1 [PyVal.str "CA", PyVal.str ""]
  , res_id := ndOf1 [PyVal.int 1, PyVal.int 5]
  , chain_id := ndOf1 [PyVal.str "A", PyVal.str "A"]
  , atom_element := none, res_name := none, chain_type := none }

/-- The same two-slot layout with different padding-slot content in res_id
and chain_id. -/
def alTwoB : AtomLayout :=
  { atom_name := ndOf1 [PyVal.str "CA", PyVal.str ""]
  , res_id := ndOf1 [PyVal.int 1, PyVal.int 9]
  , chain_id := ndOf1 [PyVal.str "A", PyVal.str "Z"]
  , atom_element := none, res_name := none, chain_type := none }

/-- A fully populated two-slot layout. -/
def alFull : AtomLayout :=
  { atom_name := ndOf1 [PyVal.str "CA", PyVal.str ""]
  , res_id := ndOf1 [PyVal.int 1, PyVal.int 0]
  , chain_id := ndOf1 [PyVal.str "A", PyVal.str ""]
  , atom_element := some (ndOf1 [PyVal.str "C", PyVal.str ""])
  , res_name := some (ndOf1 [PyVal.str "LEU", PyVal.str ""])
  , chain_type := some (ndOf1 [PyVal.str "polypeptide(L)", PyVal.str ""]) }

/-- A GatherInfo with an all-false mask. -/
def giAllFalse : GatherInfo :=
  { gather_idxs := { shape := [2], data := [0, 1] }
  , gather_mask := { shape := [2], data := [false, false] }
  , input_shape := [2] }

deriving instance DecidableEq for Except

/-- A 2 by 2 GatherInfo used to witness the slicing claim. -/
def giSquare : GatherInfo :=
  { gather_idxs := { shape := [2, 2], data := [0, 1, 2, 3] }
  , gather_mask := { shape := [2, 2], data := [true, false, true, true] }
  , input_shape := [4] }

example : convert (identityGatherInfo [2]) { shape := [2], data := [3, 4] } [0]
    = .ok { shape := [2], data := [3, 4] } := by decide

example : convert (identityGatherInfo [3]) { shape := [2, 3], data := [1, 2, 3, 4, 5, 6] } [1]
    = .ok { shape := [2, 3], data := [1, 2, 3, 4, 5, 6] } := by decide

example : convert giAllFalse { shape := [2], data := [5, 7] } [0]
    = .ok { shape := [2], data := [0, 0] } := by decide

example : convert (identityGatherInfo [2]) { shape := [3], data := [5, 7, 9] } [0]
    = .ok { shape := [2], data := [5, 7] } := by decide

example : (convert (identityGatherInfo [2]) { shape := [1], data := [5] } [0]).isOk
    = false := by decide

example : convert (identityGatherInfo [2]) { shape := [2, 2], data := [1, 2, 3, 4] } [0]
    = .ok { shape := [2, 2], data := [1, 2, 3, 4] } := by decide

example : convert (identityGatherInfo [2]) { shape := [2, 3], data := [1, 2, 3, 4, 5, 6] } [-2]
    = .ok { shape := [2, 3], data := [1, 2, 3, 4, 5, 6] } := by decide

/-- Claim C1: of the three extension-path flags of AtomCrossAttEncoder.forward,
only the token_atoms_act path and the trunk_pair_cond path raise
NotImplementedError; the trunk-supplied single-conditioning path passes its
assertion and then runs to completion, silently ignoring the provided
trunk_single_cond, contradicting the claim for that path. -/
theorem acae_extension_paths :
    acaeForwardOutcome ⟨true, false, false⟩ true false false
      = .error .notImplementedError
    ∧ acaeForwardOutcome ⟨false, false, true⟩ false false true
      = .error .notImplementedError
    ∧ acaeForwardOutcome ⟨false, true, false⟩ false true false = .ok () := by
  decide

/-- Claim C2: AttentionPairBias.forward evaluates self.layer_norm(x)
unconditionally, but the submodule is registered only when use_single_cond is
False; hence in conditioning mode the forward raises AttributeError instead
of completing without normalization, while in the default mode it applies
the internal layer norm to x first, contradicting the first half of the
claim. -/
theorem apb_forward_norm_behavior (ln : List ℚ → List ℚ) (x : List ℚ) :
    apbForwardNormed (mkAttentionPairBias true ln) x = .error .attributeError
    ∧ apbForwardNormed (mkAttentionPairBias false ln) x = .ok (ln x) := by
  exact ⟨rfl, rfl⟩

/-- Claim C3, counterexample: two one-slot layouts of the same shape, all of
whose slots are padding (so every field trivially agrees on every valid
slot), one with the empty string and one with None in the padding slot of
atom_name, compare unequal under AtomLayout.__eq__, because atom_name is
compared in full with np.array_equal. -/
theorem atomlayout_masked_eq_cex :
    alPadStr.wf = true ∧ alPadNull.wf = true
    ∧ alPadStr.atom_name.shape = alPadNull.atom_name.shape
    ∧ (∀ ix ∈ indicesOf alPadStr.atom_name.shape,
        (alPadStr.atom_name.val ix).truthy = true →
          alPadStr.res_id.val ix = alPadNull.res_id.val ix
          ∧ alPadStr.chain_id.val ix = alPadNull.chain_id.val ix)
    ∧ AtomLayout.pyEq alPadStr alPadNull = false := by
  decide

/-- Claim C3, amended: AtomLayout equality holds whenever the atom_name
arrays are equal in full (padding entries of atom_name included) and every
other field agrees on every valid slot (optional fields whenever both sides
are present); padding-slot content of the non-atom_name fields is ignored. -/
theorem atomlayout_masked_eq_amended (A B : AtomLayout)
    (hname : ndFullEq A.atom_name B.atom_name = true)
    (hres : ∀ ix ∈ indicesOf A.atom_name.shape,
      (A.atom_name.val ix).truthy = true → A.res_id.val ix = B.res_id.val ix)
    (hchain : ∀ ix ∈ indicesOf A.atom_name.shape,
      (A.atom_name.val ix).truthy = true → A.chain_id.val ix = B.chain_id.val ix)
    (helem : ∀ x y, A.atom_element = some x → B.atom_element = some y →
      ∀ ix ∈ indicesOf A.atom_name.shape,
        (A.atom_name.val ix).truthy = true → x.val ix = y.val ix)
    (hresn : ∀ x y, A.res_name = some x → B.res_name = some y →
      ∀ ix ∈ indicesOf A.atom_name.shape,
        (A.atom_name.val ix).truthy = true → x.val ix = y.val ix)
    (hct : ∀ x y, A.chain_type = some x → B.chain_type = some y →
      ∀ ix ∈ indicesOf A.atom_name.shape,
        (A.atom_name.val ix).truthy = true → x.val ix = y.val ix) :
    A.pyEq B = true := by
  have hmf : ∀ (a b : NDArray),
      (∀ ix ∈ indicesOf A.atom_name.shape,
        (A.atom_name.val ix).truthy = true → a.val ix = b.val ix) →
      maskedFieldEq A.atom_name a b = true := by
    intro a b h
    unfold maskedFieldEq
    rw [List.all_eq_true]
    intro ix hix
    cases ht : (A.atom_name.val ix).truthy with
    | false => simp [ht]
    | true => simp [ht, h ix hix ht]
  unfold AtomLayout.pyEq
  simp only [Bool.and_eq_true]
  refine ⟨⟨⟨⟨⟨hname, ?_⟩, ?_⟩, ?_⟩, ?_⟩, ?_⟩
  · exact hmf _ _ hres
  · exact hmf _ _ hchain
  · unfold optMaskedEq
    cases he : A.atom_element with
    | none => rfl
    | some x =>
      cases hf : B.atom_element with
      | none => rfl
      | some y => exact hmf x y (helem x y he hf)
  · unfold optMaskedEq
    cases he : A.res_name with
    | none => rfl
    | some x =>
      cases hf : B.res_name with
      | none => rfl
      | some y => exact hmf x y (hresn x y he hf)
  · unfold optMaskedEq
    cases he : A.chain_type with
    | none => rfl
    | some x =>
      cases hf : B.chain_type with
      | none => rfl
      | some y => exact hmf x y (hct x y he hf)

/-- Witness for the amended claim C3: two concrete layouts differing only in
the padding-slot content of res_id and chain_id compare equal. -/
theorem atomlayout_masked_eq_amended_witness :
    AtomLayout.pyEq alTwoA alTwoB = true := by
  exact atomlayout_masked_eq_amended alTwoA alTwoB (by decide) (by decide)
    (by decide) (by intro x y h; simp [alTwoA] at h)
    (by intro x y h; simp [alTwoA] at h) (by intro x y h; simp [alTwoA] at h)

theorem ndarray_eta (x : NDArray) (s : List Nat) (h : s = x.shape) :
    NDArray.mk s x.val = x := by
  subst h
  rfl

theorem wf_unpack (L : AtomLayout) (h : L.wf = true) :
    L.res_id.shape = L.atom_name.shape ∧ L.chain_id.shape = L.atom_name.shape
    ∧ (∀ x, L.atom_element = some x → x.shape = L.atom_name.shape)
    ∧ (∀ x, L.res_name = some x → x.shape = L.atom_name.shape)
    ∧ (∀ x, L.chain_type = some x → x.shape = L.atom_name.shape) := by
  unfold AtomLayout.wf at h
  simp only [Bool.and_eq_true, beq_iff_eq] at h
  obtain ⟨⟨⟨⟨h1, h2⟩, h3⟩, h4⟩, h5⟩ := h
  refine ⟨h1, h2, ?_, ?_, ?_⟩ <;> intro x hx
  · rw [hx] at h3
    simpa [optShapeOk] using h3
  · rw [hx] at h4
    simpa [optShapeOk] using h4
  · rw [hx] at h5
    simpa [optShapeOk] using h5

theorem ndFullEq_of (a b : NDArray) (hs : a.shape = b.shape)
    (hv : ∀ ix ∈ indicesOf a.shape, a.val ix = b.val ix) : ndFullEq a b = true := by
  unfold ndFullEq
  rw [Bool.and_eq_true]
  constructor
  · simp [hs]
  · rw [List.all_eq_true]
    intro ix hix
    simp [hv ix hix]

theorem maskedFieldEq_of_val_eq (nameArr a b : NDArray)
    (hv : ∀ ix ∈ indicesOf nameArr.shape, a.val ix = b.val ix) :
    maskedFieldEq nameArr a b = true := by
  unfold maskedFieldEq
  rw [List.all_eq_true]
  intro ix hix
  simp [hv ix hix]

theorem pyEq_refl (L : AtomLayout) : L.pyEq L = true := by
  unfold AtomLayout.pyEq
  simp only [Bool.and_eq_true]
  refine ⟨⟨⟨⟨⟨?_, ?_⟩, ?_⟩, ?_⟩, ?_⟩, ?_⟩
  · exact ndFullEq_of _ _ rfl (fun ix _ => rfl)
  · exact maskedFieldEq_of_val_eq _ _ _ (fun ix _ => rfl)
  · exact maskedFieldEq_of_val_eq _ _ _ (fun ix _ => rfl)
  · cases L.atom_element with
    | none => rfl
    | some x => exact maskedFieldEq_of_val_eq _ _ _ (fun ix _ => rfl)
  · cases L.res_name with
    | none => rfl
    | some x => exact maskedFieldEq_of_val_eq _ _ _ (fun ix _ => rfl)
  · cases L.chain_type with
    | none => rfl
    | some x => exact maskedFieldEq_of_val_eq _ _ _ (fun ix _ => rfl)

/-- Claim C7: for a well-formed, fully populated layout, to_array succeeds
and from_array inverts it up to the masked equality of AtomLayout.__eq__
(in fact exactly); to_array raises when any optional field is absent; and
from_array raises whenever the first dimension of the given array is not 6. -/
theorem atomlayout_array_roundtrip (L : AtomLayout) (hwf : L.wf = true) :
    (∀ el rn ct, L.atom_element = some el → L.res_name = some rn →
      L.chain_type = some ct →
      ∃ a, L.to_array = .ok a
        ∧ AtomLayout.from_array a = .ok L ∧ AtomLayout.pyEq L L = true)
    ∧ ((L.atom_element = none ∨ L.res_name = none ∨ L.chain_type = none) →
      L.to_array = .error "All optional fields need to be present.")
    ∧ (∀ arr : NDArray, arr.shape.headD 0 ≠ 6 →
      ∃ msg, AtomLayout.from_array arr = .error msg) := by
  obtain ⟨hres, hchain, helem, hresn, hct⟩ := wf_unpack L hwf
  refine ⟨?_, ?_, ?_⟩
  · intro el rn ct hel hrn hctp
    have ha : L.to_array = .ok
        { shape := 6 :: L.atom_name.shape
        , val := fun ix =>
            match ix with
            | [] => PyVal.null
            | i :: rest =>
              if i = 0 then L.atom_name.val rest
              else if i = 1 then L.res_id.val rest
              else if i = 2 then L.chain_id.val rest
              else if i = 3 then el.val rest
              else if i = 4 then rn.val rest
              else if i = 5 then ct.val rest
              else PyVal.null } := by
      unfold AtomLayout.to_array
      rw [hel, hrn, hctp]
    refine ⟨_, ha, ?_, pyEq_refl L⟩
    have hfa : AtomLayout.from_array
        { shape := 6 :: L.atom_name.shape
        , val := fun ix =>
            match ix with
            | [] => PyVal.null
            | i :: rest =>
              if i = 0 then L.atom_name.val rest
              else if i = 1 then L.res_id.val rest
              else if i = 2 then L.chain_id.val rest
              else if i = 3 then el.val rest
              else if i = 4 then rn.val rest
              else if i = 5 then ct.val rest
              else PyVal.null }
        = .ok (AtomLayout.mk
            (NDArray.mk L.atom_name.shape L.atom_name.val)
            (NDArray.mk L.atom_name.shape L.res_id.val)
            (NDArray.mk L.atom_name.shape L.chain_id.val)
            (some (NDArray.mk L.atom_name.shape el.val))
            (some (NDArray.mk L.atom_name.shape rn.val))
            (some (NDArray.mk L.atom_name.shape ct.val))) := rfl
    rw [hfa, ndarray_eta L.atom_name _ rfl, ndarray_eta L.res_id _ hres.symm,
      ndarray_eta L.chain_id _ hchain.symm,
      ndarray_eta el _ (helem el hel).symm,
      ndarray_eta rn _ (hresn rn hrn).symm,
      ndarray_eta ct _ (hct ct hctp).symm,
      ← hel, ← hrn, ← hctp]
  · intro h
    unfold AtomLayout.to_array
    rcases h with h | h | h
    · rw [h]
    · rw [h]
      cases L.atom_element <;> rfl
    · rw [h]
      cases L.atom_element <;> cases L.res_name <;> rfl
  · intro arr h
    unfold AtomLayout.from_array
    cases hs : arr.shape with
    | nil => exact ⟨_, rfl⟩
    | cons n rest =>
      rw [hs] at h
      simp only [List.headD_cons] at h
      exact ⟨"Given array must have shape (6, ...)", by simp [h]⟩

/-- Witness for claim C7: the round trip on a concrete fully populated
two-slot layout. -/
theorem atomlayout_array_roundtrip_witness :
    ∃ a, alFull.to_array = .ok a
      ∧ AtomLayout.from_array a = .ok alFull
      ∧ AtomLayout.pyEq alFull alFull = true := by
  exact (atomlayout_array_roundtrip alFull (by decide)).1 _ _ _ rfl rfl rfl

theorem mem_indicesOf_inBounds : ∀ (s ix : List Nat), ix ∈ indicesOf s → inBounds ix s = true := by
  intro s
  induction s with
  | nil =>
    intro ix h
    simp only [indicesOf, List.mem_singleton] at h
    subst h
    rfl
  | cons n rest ih =>
    intro ix h
    simp only [indicesOf, List.mem_flatMap, List.mem_map] at h
    obtain ⟨i, hi, ix2, hix2, rfl⟩ := h
    have hb := ih ix2 hix2
    have hi2 : i < n := List.mem_range.mp hi
    unfold inBounds
    simp [hi2, hb]

theorem zipWith_min_eq_left : ∀ (a b : List Nat), a.length = b.length →
    (∀ i, i < a.length → a.getD i 0 ≤ b.getD i 0) → List.zipWith min a b = a := by
  intro a
  induction a with
  | nil =>
    intro b _ _
    simp
  | cons x xs ih =>
    intro b hlen hle
    cases b with
    | nil => simp at hlen
    | cons y ys =>
      simp only [List.zipWith_cons_cons]
      have h0 : x ≤ y := by simpa using hle 0 (by simp)
      rw [min_eq_left h0,
        ih ys (by simpa using hlen) (fun i hi => by simpa using hle (i + 1) (by simpa using hi))]

theorem pad_slice_field (field : NDArray) (nameShape S : List Nat) (padv : PyVal)
    (hfs : field.shape = nameShape)
    (hlen : S.length = nameShape.length)
    (hle : ∀ i, i < S.length → nameShape.getD i 0 ≤ S.getD i 0) :
    ndFullEq ((field.padTo S padv).sliceTo nameShape) field = true := by
  have hmin : List.zipWith min nameShape S = nameShape :=
    zipWith_min_eq_left nameShape S (by omega) (fun i hi => hle i (by omega))
  apply ndFullEq_of
  · show List.zipWith min nameShape S = field.shape
    rw [hmin, hfs]
  · show ∀ ix ∈ indicesOf (List.zipWith min nameShape S), _
    rw [hmin]
    intro ix hix
    show (if inBounds ix field.shape then field.val ix else padv) = field.val ix
    rw [hfs, mem_indicesOf_inBounds nameShape ix hix]
    rfl

/-- Claim C8: for a well-formed layout L and a target shape S of the same
rank with every dimension at least the corresponding dimension of L, padding
succeeds and slicing the padded layout back to the original extents
reproduces L exactly (every field, every entry, presence of optional fields
and hence the padding-versus-valid distinction); a target shape of a
different rank raises, and a target with any smaller dimension raises. -/
theorem atomlayout_pad_roundtrip (L : AtomLayout) (S : List Nat) (hwf : L.wf = true) :
    (S.length = L.atom_name.shape.length →
      (∀ i, i < S.length → L.atom_name.shape.getD i 0 ≤ S.getD i 0) →
      ∃ P, L.copy_and_pad_to S = .ok P
        ∧ AtomLayout.strictEq (P.getitem L.atom_name.shape) L = true)
    ∧ (S.length ≠ L.atom_name.shape.length →
      L.copy_and_pad_to S = .error "Incompatible shape")
    ∧ (S.length = L.atom_name.shape.length →
      (∃ i, i < S.length ∧ S.getD i 0 < L.atom_name.shape.getD i 0) →
      L.copy_and_pad_to S = .error "Cannot pad to a smaller shape") := by
  obtain ⟨hres, hchain, helem, hresn, hct⟩ := wf_unpack L hwf
  refine ⟨?_, ?_, ?_⟩
  · intro hlen hle
    have hany : (List.zipWith (fun old new => decide (new < old)) L.atom_name.shape S).any id
        = false := by
      rw [← Bool.not_eq_true, List.any_eq_true]
      rintro ⟨x, hx, hxid⟩
      rw [List.mem_iff_getElem] at hx
      obtain ⟨i, hilt, hxi⟩ := hx
      rw [List.getElem_zipWith] at hxi
      have hiS : i < S.length := by
        have := List.length_zipWith (fun old new => decide (new < old)) L.atom_name.shape S
        omega
      have hile : L.atom_name.shape.getD i 0 ≤ S.getD i 0 := hle i hiS
      rw [List.getD_eq_getElem _ _ (by omega), List.getD_eq_getElem _ _ hiS] at hile
      rw [← hxi] at hxid
      simp only [id_eq, decide_eq_true_eq] at hxid
      omega
    unfold AtomLayout.copy_and_pad_to
    rw [if_neg (by omega), if_neg (by simp [hany])]
    refine ⟨_, rfl, ?_⟩
    unfold AtomLayout.getitem AtomLayout.strictEq
    simp only [Bool.and_eq_true]
    refine ⟨⟨⟨⟨⟨?_, ?_⟩, ?_⟩, ?_⟩, ?_⟩, ?_⟩
    · exact pad_slice_field L.atom_name L.atom_name.shape S _ rfl hlen hle
    · exact pad_slice_field L.res_id L.atom_name.shape S _ hres hlen hle
    · exact pad_slice_field L.chain_id L.atom_name.shape S _ hchain hlen hle
    · cases he : L.atom_element with
      | none => rfl
      | some x =>
        simp only [Option.map_some']
        exact pad_slice_field x L.atom_name.shape S _ (helem x he) hlen hle
    · cases he : L.res_name with
      | none => rfl
      | some x =>
        simp only [Option.map_some']
        exact pad_slice_field x L.atom_name.shape S _ (hresn x he) hlen hle
    · cases he : L.chain_type with
      | none => rfl
      | some x =>
        simp only [Option.map_some']
        exact pad_slice_field x L.atom_name.shape S _ (hct x he) hlen hle
  · intro h
    unfold AtomLayout.copy_and_pad_to
    rw [if_pos h]
  · intro hlen h
    obtain ⟨i, hiS, hANF⟩ := h
    have hany : (List.zipWith (fun old new => decide (new < old)) L.atom_name.shape S).any id
        = true := by
      rw [List.any_eq_true]
      have hiz : i < (List.zipWith (fun old new => decide (new < old)) L.atom_name.shape S).length := by
        have := List.length_zipWith (fun old new => decide (new < old)) L.atom_name.shape S
        omega
      refine ⟨_, List.getElem_mem hiz, ?_⟩
      rw [List.getElem_zipWith]
      rw [List.getD_eq_getElem _ _ hiS, List.getD_eq_getElem _ _ (by omega : i < L.atom_name.shape.length)] at hANF
      simp only [id_eq, decide_eq_true_eq]
      omega
    unfold AtomLayout.copy_and_pad_to
    rw [if_neg (by omega), if_pos hany]

/-- Witness for claim C8: padding a concrete two-slot layout to three slots
and slicing back reproduces it exactly. -/
theorem atomlayout_pad_roundtrip_witness :
    ∃ P, alTwoA.copy_and_pad_to [3] = .ok P
      ∧ AtomLayout.strictEq (P.getitem alTwoA.atom_name.shape) alTwoA = true := by
  exact (atomlayout_pad_roundtrip alTwoA [3] (by decide)).1 (by decide)
    (by
      intro i hi
      have h0 : i = 0 := by simpa using hi
      subst h0
      decide)

theorem applyKeyNat_shape (t : NatTensor) (k : TKey) (t2 : NatTensor)
    (h : t.applyKey k = .ok t2) : t2.shape = keyShape k t.shape := by
  unfold NatTensor.applyKey at h
  cases k with
  | idx i =>
    cases hs : t.shape with
    | nil =>
      rw [hs] at h
      simp at h
    | cons hd rest =>
      rw [hs] at h
      dsimp only at h
      by_cases hlt : i < hd
      · rw [if_pos hlt] at h
        simp only [Except.ok.injEq] at h
        rw [← h, keyShape]
      · rw [if_neg hlt] at h
        simp at h
  | front m =>
    cases hs : t.shape with
    | nil =>
      rw [hs] at h
      simp at h
    | cons hd rest =>
      rw [hs] at h
      dsimp only at h
      simp only [Except.ok.injEq] at h
      rw [← h, keyShape]

theorem applyKeyBool_shape (t : BoolTensor) (k : TKey) (t2 : BoolTensor)
    (h : t.applyKey k = .ok t2) : t2.shape = keyShape k t.shape := by
  unfold BoolTensor.applyKey at h
  cases k with
  | idx i =>
    cases hs : t.shape with
    | nil =>
      rw [hs] at h
      simp at h
    | cons hd rest =>
      rw [hs] at h
      dsimp only at h
      by_cases hlt : i < hd
      · rw [if_pos hlt] at h
        simp only [Except.ok.injEq] at h
        rw [← h, keyShape]
      · rw [if_neg hlt] at h
        simp at h
  | front m =>
    cases hs : t.shape with
    | nil =>
      rw [hs] at h
      simp at h
    | cons hd rest =>
      rw [hs] at h
      dsimp only at h
      simp only [Except.ok.injEq] at h
      rw [← h, keyShape]

/-- Claim C10: whenever GatherInfo.__getitem__ succeeds, the resulting
GatherInfo keeps input_shape unchanged, both gather_idxs and gather_mask are
sliced to the shape determined by the same key, and the post-init invariant
gather_idxs.shape == gather_mask.shape holds again. -/
theorem gatherinfo_getitem_frame (g : GatherInfo) (k : TKey) (g2 : GatherInfo)
    (hwf : g.gather_mask.shape = g.gather_idxs.shape)
    (hok : g.getKey k = .ok g2) :
    g2.input_shape = g.input_shape
    ∧ g2.gather_mask.shape = g2.gather_idxs.shape
    ∧ g2.gather_idxs.shape = keyShape k g.gather_idxs.shape := by
  unfold GatherInfo.getKey at hok
  cases hidx : g.gather_idxs.applyKey k with
  | error msg =>
    rw [hidx] at hok
    simp [Bind.bind, Except.bind] at hok
  | ok i2 =>
    rw [hidx] at hok
    cases hmask : g.gather_mask.applyKey k with
    | error msg =>
      rw [hmask] at hok
      simp [Bind.bind, Except.bind] at hok
    | ok m2 =>
      rw [hmask] at hok
      simp only [Bind.bind, Except.bind] at hok
      unfold mkGatherInfo at hok
      have hshapes : m2.shape = i2.shape := by
        rw [applyKeyNat_shape _ _ _ hidx, applyKeyBool_shape _ _ _ hmask, hwf]
      rw [if_neg (by simp [hshapes])] at hok
      simp only [Except.ok.injEq] at hok
      rw [← hok]
      exact ⟨rfl, hshapes, applyKeyNat_shape _ _ _ hidx⟩

/-- Witness for claim C10: slicing a concrete 2 by 2 GatherInfo with the
integer key 1. -/
theorem gatherinfo_getitem_frame_witness :
    ({ gather_idxs := { shape := [2], data := [2, 3] }
     , gather_mask := { shape := [2], data := [true, true] }
     , input_shape := [4] } : GatherInfo).input_shape = giSquare.input_shape
    ∧ ({ gather_idxs := { shape := [2], data := [2, 3] }
       , gather_mask := { shape := [2], data := [true, true] }
       , input_shape := [4] } : GatherInfo).gather_mask.shape
      = ({ gather_idxs := { shape := [2], data := [2, 3] }
         , gather_mask := { shape := [2], data := [true, true] }
         , input_shape := [4] } : GatherInfo).gather_idxs.shape
    ∧ ({ gather_idxs := { shape := [2], data := [2, 3] }
       , gather_mask := { shape := [2], data := [true, true] }
       , input_shape := [4] } : GatherInfo).gather_idxs.shape
      = keyShape (.idx 1) giSquare.gather_idxs.shape := by
  exact gatherinfo_getitem_frame giSquare (.idx 1) _ (by decide) (by decide)

theorem getD_range_map_eq_self (d : List Int) :
    (List.range d.length).map (fun p => d.getD p 0) = d := by
  apply List.ext_getElem
  · simp
  · intro i h1 h2
    simp only [List.getElem_map, List.getElem_range]
    rw [List.getD_eq_getElem _ _ h2]

theorem flat_range_map (n m : Nat) (g : Nat → Int) :
    (List.range n).flatMap (fun i => (List.range m).map (fun j => g (i * m + j)))
    = (List.range (n * m)).map g := by
  induction n with
  | zero => simp
  | succ k ih =>
    rw [List.range_succ, List.flatMap_append, ih, Nat.succ_mul, List.range_add,
      List.map_append]
    congr 1
    simp only [List.flatMap_cons, List.flatMap_nil, List.append_nil, List.map_map]
    rfl

theorem flat3 (nB L F : Nat) (g : Nat → Int) :
    (List.range nB).flatMap (fun b => (List.range L).flatMap (fun i =>
      (List.range F).map (fun f => g ((b * L + i) * F + f))))
    = (List.range (nB * (L * F))).map g := by
  have inner : (fun b => (List.range L).flatMap (fun i =>
      (List.range F).map (fun f => g ((b * L + i) * F + f))))
      = (fun b => (List.range (L * F)).map (fun p => g (b * (L * F) + p))) := by
    funext b
    rw [← flat_range_map L F (fun p => g (b * (L * F) + p))]
    congr 1
    funext i
    congr 1
    funext f
    congr 1
    ring
  rw [inner]
  exact flat_range_map nB (L * F) g

theorem gatherFlat_identity (d : List Int) (nB L F : Nat)
    (hd : d.length = nB * (L * F)) :
    gatherFlat d L F (List.range L) nB = d := by
  unfold gatherFlat
  rw [flat3 nB L F (fun p => d.getD p 0), ← hd]
  exact getD_range_map_eq_self d

theorem applyMask_replicate_true (d : List Int) (L F : Nat)
    (hL : 0 < L ∨ d = []) :
    applyMask d (List.replicate L true) F = d := by
  rcases hL with hpos | hnil
  · unfold applyMask
    have hget : ∀ p : Nat,
        (List.replicate L true).getD (p / F % (List.replicate L true).length) false
        = true := by
      intro p
      rw [List.length_replicate]
      have hm : p / F % L < L := Nat.mod_lt _ hpos
      rw [List.getD_eq_getElem _ _ (by simpa using hm), List.getElem_replicate]
    simp only [hget, if_true]
    exact getD_range_map_eq_self d
  · subst hnil
    rfl

theorem applyMask_all_false (d : List Int) (mask : List Bool) (F : Nat)
    (hm : ∀ m ∈ mask, m = false) : ∀ y ∈ applyMask d mask F, y = 0 := by
  intro y hy
  unfold applyMask at hy
  rw [List.mem_map] at hy
  obtain ⟨p, _, hpe⟩ := hy
  rw [← hpe]
  have hfalse : mask.getD (p / F % mask.length) false = false := by
    by_cases hlt : p / F % mask.length < mask.length
    · rw [List.getD_eq_getElem _ _ hlt]
      exact hm _ (List.getElem_mem hlt)
    · exact List.getD_eq_default _ _ (by omega)
  rw [hfalse]
  rfl

theorem pyNormClamp_of_le (len : Nat) (i : Int) (h0 : 0 ≤ i) (hle : i ≤ (len : Int)) :
    pyNormClamp len i = i.toNat := by
  unfold pyNormClamp
  rw [if_neg (by omega), if_neg (by omega)]

/-- Claim C5: for a GatherInfo whose mask is all false, whenever convert
succeeds its result is zero at every position, regardless of the input
array content. -/
theorem convert_allfalse_zero (gi : GatherInfo) (arr : Tensor) (axes : List Int)
    (out : Tensor) (hok : convert gi arr axes = .ok out)
    (hmask : ∀ m ∈ gi.gather_mask.data, m = false) :
    out.data.all (fun y => decide (y = 0)) = true := by
  unfold convert at hok
  dsimp only at hok
  split_ifs at hok
  simp only [Except.ok.injEq] at hok
  rw [List.all_eq_true]
  intro y hy
  rw [← hok] at hy
  dsimp only at hy
  exact decide_eq_true (applyMask_all_false _ _ _ hmask y hy)

/-- Witness for claim C5: the all-false-mask GatherInfo on a concrete input
produces the all-zero output. -/
theorem convert_allfalse_zero_witness :
    ({ shape := [2], data := [0, 0] } : Tensor).data.all (fun y => decide (y = 0))
      = true := by
  exact convert_allfalse_zero giAllFalse { shape := [2], data := [5, 7] } [0]
    { shape := [2], data := [0, 0] } (by decide) (by decide)

theorem map_add_eq_intRange (c m : Nat) :
    (List.range m).map (fun i => ((c + i : Nat) : Int))
    = intRange (c : Int) ((c : Int) + (m : Int)) := by
  unfold intRange
  have h : ((c : Int) + (m : Int) - (c : Int)).toNat = m := by omega
  rw [h]
  apply List.ext_getElem
  · simp
  · intro i h1 h2
    simp only [List.getElem_map, List.getElem_range]
    push_cast
    ring

theorem intRange_headD (c : Int) (m : Nat) (hm : 0 < m) :
    (intRange c (c + (m : Int))).headD 0 = c := by
  unfold intRange
  have h : (c + (m : Int) - c).toNat = m := by omega
  rw [h]
  obtain ⟨m2, rfl⟩ : ∃ m2, m = m2 + 1 := ⟨m - 1, by omega⟩
  rw [List.range_succ_eq_map]
  simp

theorem intRange_getLastD (c : Int) (m : Nat) (hm : 0 < m) :
    (intRange c (c + (m : Int))).getLastD 0 = c + (m : Int) - 1 := by
  unfold intRange
  have h : (c + (m : Int) - c).toNat = m := by omega
  rw [h]
  obtain ⟨m2, rfl⟩ : ∃ m2, m = m2 + 1 := ⟨m - 1, by omega⟩
  rw [List.range_succ, List.map_append]
  simp only [List.map_cons, List.map_nil, List.getLastD_concat]
  push_cast
  ring

theorem pySlice_decomp (x y z : List Nat) :
    pySlice (x ++ (y ++ z)) (x.length : Int) ((x.length : Int) + (y.length : Int)) = y := by
  unfold pySlice
  rw [pyNormClamp_of_le _ _ (by omega) (by simp only [List.length_append]; omega),
    pyNormClamp_of_le _ _ (by omega) (by simp only [List.length_append]; omega)]
  have h1 : ((x.length : Int)).toNat = x.length := by omega
  have h2 : ((x.length : Int) + (y.length : Int)).toNat = x.length + y.length := by omega
  rw [h1, h2, List.drop_left]
  have h3 : x.length + y.length - x.length = y.length := by omega
  rw [h3, List.take_left]

theorem pySlice_prefix_eq (x rest : List Nat) :
    pySlice (x ++ rest) 0 (x.length : Int) = x := by
  unfold pySlice
  rw [pyNormClamp_of_le _ _ (by omega) (by simp only [List.length_append]; omega),
    pyNormClamp_of_le _ _ (by omega) (by simp only [List.length_append]; omega)]
  have h1 : ((0 : Int)).toNat = 0 := rfl
  have h2 : ((x.length : Int)).toNat = x.length := by omega
  rw [h1, h2, List.drop_zero]
  have h3 : x.length - 0 = x.length := by omega
  rw [h3, List.take_left]

theorem pyDrop_decomp (x y z : List Nat) :
    pyDrop (x ++ (y ++ z)) ((x.length : Int) + (y.length : Int)) = z := by
  unfold pyDrop
  rw [pyNormClamp_of_le _ _ (by omega) (by simp only [List.length_append]; omega)]
  have h2 : ((x.length : Int) + (y.length : Int)).toNat = x.length + y.length := by omega
  rw [h2, ← List.length_append, ← List.append_assoc, List.drop_left]

/-- Claim C4: for the identity-permutation GatherInfo over a layout shape s
(indices enumerating every flattened source position in order, all-true
mask, output shape equal to the input shape) and any compatible array whose
layout-axis span equals s (with up to 4 batch axes before it and any
feature axes after it), convert returns the array unchanged. -/
theorem convert_identity_map (batch s features : List Nat) (d : List Int)
    (hb : batch.length ≤ 4) (hs : s ≠ [])
    (hd : d.length = (batch ++ (s ++ features)).prod) :
    convert (identityGatherInfo s)
      { shape := batch ++ (s ++ features), data := d }
      ((List.range s.length).map (fun i => ((batch.length + i : Nat) : Int)))
    = .ok { shape := batch ++ (s ++ features), data := d } := by
  have hm : 0 < s.length := List.length_pos.mpr hs
  have haxes_ne : (List.range s.length).map (fun i => ((batch.length + i : Nat) : Int)) ≠ [] := by
    simp only [ne_eq, List.map_eq_nil_iff, List.range_eq_nil]
    omega
  have hnorm : normAxes
      ((List.range s.length).map (fun i => ((batch.length + i : Nat) : Int)))
      (batch ++ (s ++ features)).length
      = (List.range s.length).map (fun i => ((batch.length + i : Nat) : Int)) := by
    unfold normAxes
    rw [List.map_map]
    have hfun : ((fun i : Int => if 0 ≤ i then i else i + ((batch ++ (s ++ features)).length : Int))
        ∘ fun i : Nat => ((batch.length + i : Nat) : Int))
        = fun i : Nat => ((batch.length + i : Nat) : Int) := by
      funext i
      simp only [Function.comp_apply]
      rw [if_pos (by omega)]
    rw [hfun]
  unfold convert
  dsimp only [identityGatherInfo]
  rw [if_neg haxes_ne, hnorm, map_add_eq_intRange batch.length s.length,
    intRange_headD _ _ hm, intRange_getLastD _ _ hm]
  have he : (batch.length : Int) + (s.length : Int) - 1 + 1
      = (batch.length : Int) + (s.length : Int) := by ring
  rw [he, if_neg (by simp), pySlice_decomp batch s features]
  rw [if_neg (by simp), if_neg hs, if_neg (by simp)]
  rw [pySlice_prefix_eq batch (s ++ features), pyDrop_decomp batch s features]
  rw [if_neg (by omega), if_neg (by simp [List.all_eq_true, List.mem_range])]
  have hlen : d.length = batch.prod * (s.prod * features.prod) := by
    rw [hd]
    simp [List.prod_append]
  rw [gatherFlat_identity d batch.prod s.prod features.prod hlen]
  have hLd : 0 < s.prod ∨ d = [] := by
    rcases Nat.eq_zero_or_pos s.prod with h0 | hpos
    · right
      have hz : d.length = 0 := by
        rw [hlen, h0]
        simp
      exact List.length_eq_zero.mp hz
    · exact Or.inl hpos
  rw [applyMask_replicate_true d s.prod features.prod hLd, List.append_assoc]

/-- Witness for claim C4: the identity map over the shape [2] leaves a
concrete two-element tensor unchanged. -/
theorem convert_identity_map_witness :
    convert (identityGatherInfo [2])
      { shape := [] ++ ([2] ++ []), data := [3, 4] }
      ((List.range ([2] : List Nat).length).map
        (fun i => ((([] : List Nat).length + i : Nat) : Int)))
    = .ok { shape := [] ++ ([2] ++ []), data := [3, 4] } := by
  exact convert_identity_map [] [2] [] [3, 4] (by decide) (by decide) (by decide)

theorem intRange_length (a c : Int) : (intRange a c).length = (c - a).toNat := by
  simp [intRange]

theorem pySlice_length {α : Type} (l : List α) (a c : Int)
    (h0 : 0 ≤ a) (hac : a ≤ c) (hcl : c ≤ (l.length : Int)) :
    (pySlice l a c).length = (c - a).toNat := by
  unfold pySlice
  rw [pyNormClamp_of_le _ _ h0 (by omega), pyNormClamp_of_le _ _ (by omega) hcl]
  simp only [List.length_take, List.length_drop]
  omega

theorem pySlice_headD (l : List Nat) (a c : Int)
    (h0 : 0 ≤ a) (hac : a < c) (hcl : c ≤ (l.length : Int)) :
    (pySlice l a c).headD 0 = l.getD a.toNat 0 := by
  unfold pySlice
  rw [pyNormClamp_of_le _ _ h0 (by omega), pyNormClamp_of_le _ _ (by omega) hcl]
  have hlt : a.toNat < l.length := by omega
  rw [List.drop_eq_getElem_cons hlt]
  obtain ⟨k, hk⟩ : ∃ k, c.toNat - a.toNat = k + 1 := ⟨c.toNat - a.toNat - 1, by omega⟩
  rw [hk, List.take_succ_cons, List.headD_cons, List.getD_eq_getElem _ _ hlt]

theorem pySlice_drop_one (l : List Nat) (a c : Int)
    (h0 : 0 ≤ a) (hac : a < c) (hcl : c ≤ (l.length : Int)) :
    (pySlice l a c).drop 1 = pySlice l (a + 1) c := by
  unfold pySlice
  rw [pyNormClamp_of_le _ _ h0 (by omega), pyNormClamp_of_le _ _ (by omega) hcl,
    pyNormClamp_of_le _ _ (by omega) (by omega)]
  rw [List.drop_take, List.drop_drop]
  have h1 : (a + 1).toNat = a.toNat + 1 := by omega
  have h2 : c.toNat - a.toNat - 1 = c.toNat - (a + 1).toNat := by omega
  rw [h1] at h2 ⊢
  rw [h2]

theorem error_not_isOk {e : Type} {a : Type} (s : e) :
    ((Except.error s : Except e a).isOk = true) ↔ False := by
  simp [Except.isOk, Except.toBool]

/-- Claim C6: under the GatherInfo construction invariant (gather indices in
range for the flattened declared input shape) and a nonempty in-range axis
list, convert succeeds if and only if all of the following hold: the
normalized layout axes form a contiguous ascending run; the number of layout
axes equals the rank of the declared input shape; the first layout-axis size
of the array is at least the declared first-axis size; every subsequent
layout-axis size equals the declared one; and at most 4 batch axes precede
the layout axes.  Equivalently, convert raises exactly when one of the five
conditions of the claim fails. -/
theorem convert_ok_iff (gi : GatherInfo) (arr : Tensor) (axes : List Int)
    (hrange : ∀ i ∈ gi.gather_idxs.data, i < gi.input_shape.prod)
    (hne : axes ≠ [])
    (hin : ∀ a ∈ normAxes axes arr.shape.length,
      0 ≤ a ∧ a < (arr.shape.length : Int)) :
    (convert gi arr axes).isOk = true ↔
      (normAxes axes arr.shape.length
          = intRange ((normAxes axes arr.shape.length).headD 0)
              ((normAxes axes arr.shape.length).headD 0 + (axes.length : Int))
        ∧ axes.length = gi.input_shape.length
        ∧ gi.input_shape.headD 0
            ≤ arr.shape.getD ((normAxes axes arr.shape.length).headD 0).toNat 0
        ∧ pySlice arr.shape ((normAxes axes arr.shape.length).headD 0 + 1)
            ((normAxes axes arr.shape.length).headD 0 + (axes.length : Int))
            = gi.input_shape.drop 1
        ∧ (normAxes axes arr.shape.length).headD 0 ≤ 4) := by
  have hm : 0 < axes.length := List.length_pos.mpr hne
  unfold convert
  dsimp only
  rw [if_neg hne]
  set n := arr.shape.length with hn
  set norm := normAxes axes n with hnormdef
  set b := norm.headD 0 with hbdef
  have hnlen : norm.length = axes.length := by
    rw [hnormdef]
    exact List.length_map _ _
  have hnne : norm ≠ [] := by
    rw [hnormdef]
    simp [normAxes, hne]
  have hbmem : b ∈ norm := by
    rw [hbdef]
    cases hh : norm with
    | nil => exact absurd hh hnne
    | cons x xs => simp
  obtain ⟨hb0, hbn⟩ := hin b hbmem
  by_cases hcont : norm = intRange b (b + (axes.length : Int))
  · have hlast : norm.getLastD 0 + 1 = b + (axes.length : Int) := by
      rw [hcont, intRange_getLastD b axes.length hm]
      ring
    rw [hlast, if_neg (by simp [hcont])]
    have hlastmem : b + (axes.length : Int) - 1 ∈ norm := by
      rw [hcont]
      unfold intRange
      rw [List.mem_map]
      refine ⟨axes.length - 1, ?_, ?_⟩
      · have ht : (b + (axes.length : Int) - b).toNat = axes.length := by omega
        rw [ht]
        exact List.mem_range.mpr (by omega)
      · omega
    obtain ⟨_, hlmn⟩ := hin _ hlastmem
    have hbm_le : b + (axes.length : Int) ≤ (n : Int) := by omega
    have hslen : (pySlice arr.shape b (b + (axes.length : Int))).length = axes.length := by
      rw [pySlice_length arr.shape b _ hb0 (by omega) (by omega)]
      omega
    by_cases hlen : axes.length = gi.input_shape.length
    · rw [if_neg (by rw [hslen]; omega)]
      rw [if_neg (by
        intro hemp
        rw [hemp] at hslen
        simp at hslen
        omega)]
      rw [pySlice_headD arr.shape b _ hb0 (by omega) (by omega),
        pySlice_drop_one arr.shape b _ hb0 (by omega) (by omega)]
      by_cases h3 : gi.input_shape.headD 0 ≤ arr.shape.getD b.toNat 0
      · by_cases h4 : pySlice arr.shape (b + 1) (b + (axes.length : Int))
            = gi.input_shape.drop 1
        · rw [if_neg (not_or.mpr ⟨by omega, not_not_intro h4⟩)]
          by_cases h5 : b ≤ 4
          · rw [if_neg (not_not_intro ⟨hb0, h5⟩)]
            have hLb : gi.input_shape.prod
                ≤ (pySlice arr.shape b (b + (axes.length : Int))).prod := by
              cases hgi : gi.input_shape with
              | nil =>
                exfalso
                rw [hgi] at hlen
                rw [List.length_nil] at hlen
                omega
              | cons g0 gtail =>
                cases hls : pySlice arr.shape b (b + (axes.length : Int)) with
                | nil =>
                  exfalso
                  rw [hls] at hslen
                  rw [List.length_nil] at hslen
                  omega
                | cons l0 ltail =>
                  have hl0 : g0 ≤ l0 := by
                    have hh := pySlice_headD arr.shape b (b + (axes.length : Int))
                      hb0 (by omega) (by omega)
                    rw [hls] at hh
                    simp only [List.headD_cons] at hh
                    rw [hgi] at h3
                    simp only [List.headD_cons] at h3
                    omega
                  have htl : ltail = gtail := by
                    have hd := pySlice_drop_one arr.shape b (b + (axes.length : Int))
                      hb0 (by omega) (by omega)
                    rw [hls] at hd
                    simp only [List.drop_succ_cons, List.drop_zero] at hd
                    rw [hd, h4, hgi]
                    simp
                  rw [List.prod_cons, List.prod_cons, htl]
                  exact Nat.mul_le_mul hl0 le_rfl
            rw [if_neg (not_not_intro (List.all_eq_true.mpr
              (fun i hi => decide_eq_true (lt_of_lt_of_le (hrange i hi) hLb))))]
            exact ⟨fun _ => ⟨hcont, hlen, h3, h4, h5⟩, fun _ => rfl⟩
          · rw [if_pos (fun hc => h5 hc.2)]
            rw [error_not_isOk, false_iff]
            rintro ⟨_, _, _, _, h5x⟩
            exact h5 h5x
        · rw [if_pos (Or.inr h4)]
          rw [error_not_isOk, false_iff]
          rintro ⟨_, _, _, h4x, _⟩
          exact h4 h4x
      · rw [if_pos (Or.inl (by omega))]
        rw [error_not_isOk, false_iff]
        rintro ⟨_, _, h3x, _, _⟩
        exact h3 h3x
    · rw [if_pos (by rw [hslen]; exact hlen)]
      rw [error_not_isOk, false_iff]
      rintro ⟨_, h2x, _⟩
      exact hlen h2x
  · have hcond : norm ≠ intRange b (norm.getLastD 0 + 1) := by
      intro heq
      have hlen2 := congrArg List.length heq
      rw [intRange_length] at hlen2
      have he : norm.getLastD 0 + 1 = b + (axes.length : Int) := by omega
      rw [he] at heq
      exact hcont heq
    rw [if_pos hcond]
    rw [error_not_isOk, false_iff]
    rintro ⟨h1x, _⟩
    exact hcont h1x

/-- Witness for claim C6: a concrete compatible call succeeds, via the
backward direction of the characterization. -/
theorem convert_ok_iff_witness :
    (convert (identityGatherInfo [2]) { shape := [2], data := [1, 2] } [0]).isOk
      = true := by
  exact (convert_ok_iff (identityGatherInfo [2]) { shape := [2], data := [1, 2] }
    [0] (by decide) (by decide) (by decide)).mpr (by decide)

/-- Claim C9: with a boolean mask, dot_product_attention replaces the logit
of every masked key position by -1e9 before the softmax and leaves unmasked
logits untouched; for any strictly positive softmax exponential the
resulting weights sum to exactly 1 and every masked weight is bounded by
e(-1e9) divided by e of any logit present, which is the exact content of
the masked contribution being effectively zero while the valid weights
carry the mass. -/
theorem dpa_mask_softmax (s : ℚ) (qrow : List ℚ) (ks : List (List ℚ)) (bias : List ℚ)
    (mask : List Bool) (e : ℚ → ℚ)
    (hpos : ∀ x : ℚ, 0 < e x)
    (hmlen : mask.length = ks.length)
    (hk : ks ≠ []) :
    (∀ j, j < ks.length → mask.getD j true = false →
      (maskFill (dpaLogitsRow s qrow ks bias) mask).getD j 0 = -1000000000)
    ∧ (∀ j, j < ks.length → mask.getD j true = true →
      (maskFill (dpaLogitsRow s qrow ks bias) mask).getD j 0
        = (dpaLogitsRow s qrow ks bias).getD j 0)
    ∧ (softmaxWith e (maskFill (dpaLogitsRow s qrow ks bias) mask)).sum = 1
    ∧ (∀ j k2, j < ks.length → k2 < ks.length → mask.getD j true = false →
      (softmaxWith e (maskFill (dpaLogitsRow s qrow ks bias) mask)).getD j 0
        ≤ e (-1000000000)
          / e ((maskFill (dpaLogitsRow s qrow ks bias) mask).getD k2 0)) := by
  have hlog : (dpaLogitsRow s qrow ks bias).length = ks.length := by
    simp [dpaLogitsRow]
  have hml : (maskFill (dpaLogitsRow s qrow ks bias) mask).length = ks.length := by
    simp [maskFill, List.length_zipWith, hlog, hmlen]
  have hmasked : ∀ j, j < ks.length → mask.getD j true = false →
      (maskFill (dpaLogitsRow s qrow ks bias) mask).getD j 0 = -1000000000 := by
    intro j hj hmj
    rw [List.getD_eq_getElem _ _ (show j < mask.length by omega)] at hmj
    rw [List.getD_eq_getElem _ _ (show j < (maskFill (dpaLogitsRow s qrow ks bias) mask).length by omega)]
    unfold maskFill
    rw [List.getElem_zipWith, hmj]
    rfl
  have hkept : ∀ j, j < ks.length → mask.getD j true = true →
      (maskFill (dpaLogitsRow s qrow ks bias) mask).getD j 0
        = (dpaLogitsRow s qrow ks bias).getD j 0 := by
    intro j hj hmj
    rw [List.getD_eq_getElem _ _ (show j < mask.length by omega)] at hmj
    rw [List.getD_eq_getElem _ _ (show j < (maskFill (dpaLogitsRow s qrow ks bias) mask).length by omega),
      List.getD_eq_getElem _ _ (show j < (dpaLogitsRow s qrow ks bias).length by omega)]
    unfold maskFill
    rw [List.getElem_zipWith, hmj]
    rfl
  have hmlne : maskFill (dpaLogitsRow s qrow ks bias) mask ≠ [] := by
    have h0 : 0 < (maskFill (dpaLogitsRow s qrow ks bias) mask).length := by
      rw [hml]
      exact List.length_pos.mpr hk
    exact List.length_pos.mp h0
  have hS : 0 < ((maskFill (dpaLogitsRow s qrow ks bias) mask).map e).sum := by
    apply List.sum_pos
    · intro x hx
      obtain ⟨y, _, rfl⟩ := List.mem_map.mp hx
      exact hpos y
    · simp only [ne_eq, List.map_eq_nil_iff]
      exact hmlne
  have hsum : (softmaxWith e (maskFill (dpaLogitsRow s qrow ks bias) mask)).sum = 1 := by
    unfold softmaxWith
    calc ((maskFill (dpaLogitsRow s qrow ks bias) mask).map
          fun x => e x / ((maskFill (dpaLogitsRow s qrow ks bias) mask).map e).sum).sum
        = ((maskFill (dpaLogitsRow s qrow ks bias) mask).map
          fun x => e x * (((maskFill (dpaLogitsRow s qrow ks bias) mask).map e).sum)⁻¹).sum := by
          simp only [div_eq_mul_inv]
      _ = ((maskFill (dpaLogitsRow s qrow ks bias) mask).map e).sum
          * (((maskFill (dpaLogitsRow s qrow ks bias) mask).map e).sum)⁻¹ :=
          List.sum_map_mul_right _ e _
      _ = 1 := mul_inv_cancel₀ (ne_of_gt hS)
  refine ⟨hmasked, hkept, hsum, ?_⟩
  intro j k2 hj hk2 hmj
  have hwj : (softmaxWith e (maskFill (dpaLogitsRow s qrow ks bias) mask)).getD j 0
      = e ((maskFill (dpaLogitsRow s qrow ks bias) mask).getD j 0)
        / ((maskFill (dpaLogitsRow s qrow ks bias) mask).map e).sum := by
    unfold softmaxWith
    rw [List.getD_eq_getElem _ _ (show j < ((maskFill (dpaLogitsRow s qrow ks bias) mask).map
        fun x => e x / ((maskFill (dpaLogitsRow s qrow ks bias) mask).map e).sum).length
        by simp only [List.length_map]; omega),
      List.getElem_map,
      List.getD_eq_getElem _ _ (show j < (maskFill (dpaLogitsRow s qrow ks bias) mask).length by omega)]
  rw [hwj, hmasked j hj hmj]
  apply div_le_div_of_nonneg_left (le_of_lt (hpos _)) (hpos _)
  have hmem : e ((maskFill (dpaLogitsRow s qrow ks bias) mask).getD k2 0)
      ∈ (maskFill (dpaLogitsRow s qrow ks bias) mask).map e := by
    apply List.mem_map.mpr
    refine ⟨(maskFill (dpaLogitsRow s qrow ks bias) mask).getD k2 0, ?_, rfl⟩
    rw [List.getD_eq_getElem _ _ (show k2 < (maskFill (dpaLogitsRow s qrow ks bias) mask).length by omega)]
    exact List.getElem_mem _
  exact List.single_le_sum (fun x hx => by
    obtain ⟨y, _, rfl⟩ := List.mem_map.mp hx
    exact le_of_lt (hpos y)) _ hmem

/-- Witness for claim C9: with a constant positive exponential, a two-key
call with the second key masked has weights summing to 1 and masked logit
equal to -1e9. -/
theorem dpa_mask_softmax_witness :
    (softmaxWith (fun _ => 1)
      (maskFill (dpaLogitsRow 1 [1] [[1], [2]] [0, 0]) [true, false])).sum = 1
    ∧ (maskFill (dpaLogitsRow 1 [1] [[1], [2]] [0, 0]) [true, false]).getD 1 0
      = -1000000000 := by
  constructor
  · exact (dpa_mask_softmax 1 [1] [[1], [2]] [0, 0] [true, false] (fun _ => 1)
      (fun _ => one_pos) rfl (List.cons_ne_nil _ _)).2.2.1
  · exact (dpa_mask_softmax 1 [1] [[1], [2]] [0, 0] [true, false] (fun _ => 1)
      (fun _ => one_pos) rfl (List.cons_ne_nil _ _)).1 1 (by decide) (by decide)
